import Mathlib

/-!
Verification development for the Stronghold File Editor (src/main.py).

The file shallowly embeds the file-registry and conversion-pipeline logic
of `src/main.py`:

* path-string helpers modelling `pathlib.Path.name` / `.suffix` /
  `.with_name` on POSIX-style path strings;
* the registry operations `_add_path_batch`, `_remove_selected` (net
  effect of the takeItem loop), `_move_selection`, `_rename_item`;
* the merge pipeline `_merge_into_pdf` with its temp-file bookkeeping and
  `finally` cleanup, the converters `_convert_tiff_to_pdf` /
  `_convert_image_to_pdf` modelled as oracle-parameterised state passing;
* the export pipeline `_export_to_jpg` / `_convert_file_to_jpg`;
* the conflict resolver `_resolve_conflict_path`.

External collaborators (Qt, PIL, PyPDF2, PyMuPDF, the OS filesystem) are
modelled as oracle functions passed to the embedded operations.
-/

/-- Characters of the final path component: everything after the last `/`
(model of `pathlib.Path(...).name` for POSIX-style strings). -/
def nameChars (cs : List Char) : List Char :=
  (cs.reverse.takeWhile (fun c => c ≠ '/')).reverse

/-- Model of `pathlib.Path(s).name`: the final path component. -/
def pathName (s : String) : String :=
  String.mk (nameChars s.data)

/-- The directory part of a path, including the trailing `/` (everything up
to and including the last `/`). -/
def dirChars (cs : List Char) : List Char :=
  (cs.reverse.dropWhile (fun c => c ≠ '/')).reverse

/-- Model of `pathlib.Path(p).with_name(n)`: replace the final path component. -/
def withName (p n : String) : String :=
  String.mk (dirChars p.data) ++ n

/-- Model of `pathlib.Path(s).suffix`: CPython computes `i = name.rfind('.')` and
returns `name[i:]` when `0 < i < len(name) - 1`, else `""`. -/
def pathSuffix (s : String) : String :=
  let cs := (pathName s).data
  if cs.contains '.' then
    let i := cs.length - 1 - (cs.reverse.indexOf '.')
    if 0 < i ∧ i < cs.length - 1 then String.mk (cs.drop i) else ""
  else ""

/-- Model of `str.lower()`, character by character (all strings involved are ASCII
file names, where Python's `lower` is exactly per-character lowering). -/
def toLowerStr (s : String) : String :=
  String.mk (s.data.map Char.toLower)

/-- ASCII whitespace test for the model of `str.strip()`. -/
def isSpaceChar (c : Char) : Bool :=
  c = ' ' ∨ c = '\t' ∨ c = '\n' ∨ c = '\r'

/-- Model of `str.strip()`: drop leading and trailing whitespace. -/
def stripStr (s : String) : String :=
  String.mk (((s.data.dropWhile isSpaceChar).reverse.dropWhile isSpaceChar).reverse)

/-- The set `SUPPORTED_EXTENSIONS` from src/main.py (a Python set; membership
is all that is used). -/
def SUPPORTED_EXTENSIONS : List String :=
  [".pdf", ".tif", ".tiff", ".jpg", ".jpeg"]

/-- One row of the file list: display text (`item.text()`) and the stored
absolute path (`item.data(UserRole)`). -/
structure FileEntry where
  name : String
  path : String
deriving DecidableEq, Repr

/-- Model of `_path_already_listed`: scan all rows comparing the stored path to
`path` by exact string equality. -/
def pathAlreadyListed (reg : List FileEntry) (p : String) : Bool :=
  reg.any (fun it => it.path == p)

/-- Model of `_add_path_batch`: for each path, skip it unless it is a regular file,
has a supported (lower-cased) extension and is not already listed; otherwise
append a row whose text is the file name and whose data is the path, and
count it.  Returns the final list together with the `added` counter that the
feedback label reports. -/
def addPathBatch (isFile : String → Bool) (reg : List FileEntry) :
    List String → List FileEntry × Nat
  | [] => (reg, 0)
  | p :: ps =>
    if !(isFile p) then addPathBatch isFile reg ps
    else if !(SUPPORTED_EXTENSIONS.contains (toLowerStr (pathSuffix p))) then
      addPathBatch isFile reg ps
    else if pathAlreadyListed reg p then addPathBatch isFile reg ps
    else
      let r := addPathBatch isFile (reg ++ [⟨pathName p, p⟩]) ps
      (r.1, r.2 + 1)

/-- Spec-side restatement of the add filter (§4.1 `add`): the accepted
paths, given the path strings already present, in input order.  Used only to
state the correspondence theorem for `addPathBatch`. -/
def acceptedEntries (isFile : String → Bool) (seen : List String) :
    List String → List FileEntry
  | [] => []
  | p :: ps =>
    if isFile p && SUPPORTED_EXTENSIONS.contains (toLowerStr (pathSuffix p))
        && !(seen.any (fun q => q == p)) then
      ⟨pathName p, p⟩ :: acceptedEntries isFile (seen ++ [p]) ps
    else acceptedEntries isFile seen ps

/-- Net effect of `_remove_selected`'s `takeItem` loop: drop exactly the
rows whose index is selected, keeping the rest in order. -/
def removeSelectedAux (sel : List Nat) : Nat → List α → List α
  | _, [] => []
  | i, x :: xs =>
    if sel.contains i then removeSelectedAux sel (i + 1) xs
    else x :: removeSelectedAux sel (i + 1) xs

/-- Model of `_remove_selected` on the selected row set. -/
def removeSelected (sel : List Nat) (l : List α) : List α :=
  removeSelectedAux sel 0 l

/-- Model of `QListWidget.insertItem(row, item)`: insert at `row`, appending when
`row` is past the end. -/
def insertQt (n : Nat) (x : α) (l : List α) : List α :=
  if n ≤ l.length then l.insertIdx n x else l ++ [x]

/-- One iteration of `_move_selection`'s loop at `row`: skip when the
target is out of bounds, otherwise `takeItem(row)` then
`insertItem(target, item)`. -/
def moveStep (offset : Int) (l : List α) (row : Nat) : List α :=
  let target : Int := (row : Int) + offset
  if target < 0 ∨ (l.length : Int) ≤ target then l
  else if h : row < l.length then
    insertQt target.toNat (l.get ⟨row, h⟩) (l.eraseIdx row)
  else l

/-- Insertion into a `≤`-sorted list of row numbers. -/
def insSorted (n : Nat) : List Nat → List Nat
  | [] => [n]
  | m :: ms => if n ≤ m then n :: m :: ms else m :: insSorted n ms

/-- Model of Python `sorted(...)` on row numbers, via insertion sort. -/
def sortNat (l : List Nat) : List Nat :=
  l.foldr insSorted []

/-- Model of `_move_selection(offset)`: sort the distinct selected rows ascending,
iterate them in ascending order for a negative offset and descending order
otherwise, applying `moveStep` at each row. -/
def moveSelection (offset : Int) (sel : List Nat) (l : List α) : List α :=
  if offset = 0 then l
  else
    let rows := sortNat sel.dedup
    if rows = [] then l
    else
      let iter := if offset < 0 then rows else rows.reverse
      iter.foldl (moveStep offset) l

/-- Outcome of `_rename_item` (which UI path returned). -/
inductive RenameOutcome where
  | cancelled
  | unsupportedExt
  | declined
  | renameFailed
  | renamed
deriving DecidableEq, Repr

/-- Model of `_rename_item` on one entry.  `input` is the dialog result (`none` =
cancelled), `targetExists` the oracle for `target_path.exists()`, `confirm`
the user's answer to the overwrite question, `osOk` whether `os.rename`
succeeds.  Returns the outcome, the resulting entry (unchanged on every
failure path) and the on-disk rename performed, if any. -/
def renameItem (entry : FileEntry) (input : Option String)
    (targetExists confirm osOk : Bool) :
    RenameOutcome × FileEntry × Option (String × String) :=
  match input with
  | none => (.cancelled, entry, none)
  | some raw =>
    if stripStr raw = "" then (.cancelled, entry, none)
    else
      let trimmed := stripStr raw
      let newSuffix := toLowerStr (pathSuffix trimmed)
      let currentSuffix := toLowerStr (pathSuffix entry.path)
      if newSuffix ≠ "" ∧ ¬ newSuffix ∈ SUPPORTED_EXTENSIONS then
        (.unsupportedExt, entry, none)
      else
        let newName := if newSuffix = "" then trimmed ++ currentSuffix else trimmed
        let target := withName entry.path newName
        if targetExists ∧ ¬ confirm then (.declined, entry, none)
        else if ¬ osOk then (.renameFailed, entry, none)
        else (.renamed, ⟨pathName target, target⟩, some (entry.path, target))

/-- Model of `_rename_item` lifted to the registry: rename the entry at index `i`
(out-of-range indices leave the list unchanged, as no item exists). -/
def renameAt (reg : List FileEntry) (i : Nat) (input : Option String)
    (targetExists confirm osOk : Bool) : List FileEntry :=
  match reg.get? i with
  | none => reg
  | some e => reg.set i (renameItem e input targetExists confirm osOk).2.1

/-! ### Registry `add`: correspondence with the spec's filter (C8) -/

theorem pathAlreadyListed_iff (reg : List FileEntry) (p : String) :
    pathAlreadyListed reg p = true ↔ p ∈ reg.map FileEntry.path := by
  simp [pathAlreadyListed, List.any_eq_true, List.mem_map]

/-- C8: `_add_path_batch` appends exactly the accepted candidates (existing
regular file, supported extension, not already listed by exact path match),
in input order, leaving the registry otherwise unchanged, and the reported
count is the number of appended entries. -/
theorem addPathBatch_appends_accepted (isFile : String → Bool)
    (paths : List String) : ∀ reg : List FileEntry,
    addPathBatch isFile reg paths =
      (reg ++ acceptedEntries isFile (reg.map FileEntry.path) paths,
        (acceptedEntries isFile (reg.map FileEntry.path) paths).length) := by
  induction paths with
  | nil => intro reg; simp [addPathBatch, acceptedEntries]
  | cons p ps ih =>
    intro reg
    by_cases hf : isFile p
    · by_cases hs : toLowerStr (pathSuffix p) ∈ SUPPORTED_EXTENSIONS
      · by_cases hl : p ∈ reg.map FileEntry.path
        · have hlb : pathAlreadyListed reg p = true :=
            (pathAlreadyListed_iff reg p).mpr hl
          have hC : ¬ (∀ a ∈ reg, ¬ a.path = p) := by
            rcases List.mem_map.mp hl with ⟨a, ha, hap⟩
            exact fun hall => hall a ha hap
          simp [addPathBatch, acceptedEntries, hf, hs, hlb, hC, ih]
        · have hlb : pathAlreadyListed reg p = false :=
            Bool.eq_false_iff.mpr (fun h => hl ((pathAlreadyListed_iff reg p).mp h))
          have hl' : ∀ a ∈ reg, ¬ a.path = p := by
            intro a ha hap
            exact hl (List.mem_map.mpr ⟨a, ha, hap⟩)
          simp [addPathBatch, acceptedEntries, hf, hs, hlb, ih, if_pos hl']
      · simp [addPathBatch, acceptedEntries, hf, hs, ih]
    · simp [addPathBatch, acceptedEntries, hf, ih]

/-! ### Registry reorder: `_move_selection` (C5, C9) -/

theorem insertQt_cons (n : Nat) (v x : α) (u : List α) :
    insertQt (n + 1) v (x :: u) = x :: insertQt n v u := by
  unfold insertQt
  by_cases h : n ≤ u.length
  · rw [if_pos (by simpa using Nat.succ_le_succ h), if_pos h, List.insertIdx_succ_cons]
  · rw [if_neg (by simpa using fun hh => h (Nat.le_of_succ_le_succ hh)), if_neg h,
      List.cons_append]

theorem moveStep_one_cons (x : α) (t : List α) (r : Nat) :
    moveStep 1 (x :: t) (r + 1) = x :: moveStep 1 t r := by
  simp only [moveStep, List.length_cons]
  by_cases hcond : (t.length : Int) ≤ (r : Int) + 1
  · rw [if_pos (by push_cast; omega), if_pos (by omega)]
  · rw [if_neg (by push_cast; omega), if_neg (by omega)]
    have hr : r < t.length := by omega
    rw [dif_pos (show r + 1 < t.length + 1 from by omega), dif_pos hr]
    have h1 : (((r + 1 : Nat) : Int) + 1).toNat = ((r : Int) + 1).toNat + 1 := by omega
    rw [List.get_cons_succ, List.eraseIdx_cons_succ, h1, insertQt_cons]

theorem moveStep_one_skip (l : List α) (r : Nat) (h : l.length ≤ r + 1) :
    moveStep 1 l r = l := by
  simp only [moveStep]
  rw [if_pos (Or.inr (by omega))]

theorem moveStep_one_swap (X : List α) (a b : α) (Y : List α) :
    moveStep 1 (X ++ a :: b :: Y) X.length = X ++ b :: a :: Y := by
  induction X with
  | nil =>
    show moveStep 1 (a :: b :: Y) 0 = b :: a :: Y
    simp only [moveStep, List.length_cons]
    split_ifs with h1 h2
    · exfalso
      push_cast at h1
      rcases h1 with h1 | h1
      · exact h1
      · omega
    · have h1 : (((0 : Nat) : Int) + 1).toNat = 0 + 1 := by omega
      rw [h1]
      show insertQt (0 + 1) a (b :: Y) = b :: a :: Y
      rw [insertQt_cons]
      simp [insertQt]
    · exact absurd (Nat.succ_pos _) h2
  | cons x X' ih =>
    rw [List.cons_append, show (x :: X').length = X'.length + 1 from rfl,
      moveStep_one_cons, ih, List.cons_append]

/-- Rows occupied by a contiguous block of `k + 1` entries starting at `i`,
in ascending order (the sorted selection that `_move_selection` computes). -/
def blockRows (i k : Nat) : List Nat :=
  (List.range (k + 1)).map (i + ·)

theorem blockRows_succ (i k : Nat) :
    blockRows i (k + 1) = blockRows i k ++ [i + (k + 1)] := by
  simp [blockRows, List.range_succ]

theorem blockRows_ne_nil (i k : Nat) : blockRows i k ≠ [] := by
  simp [blockRows, List.range_succ]

theorem insSorted_of_le (n : Nat) (l : List Nat) (h : ∀ m ∈ l, n ≤ m) :
    insSorted n l = n :: l := by
  cases l with
  | nil => rfl
  | cons m ms => simp [insSorted, h m (List.mem_cons_self m ms)]

theorem sortNat_of_sorted : ∀ l : List Nat, List.Sorted (· ≤ ·) l → sortNat l = l := by
  intro l
  induction l with
  | nil => intro _; rfl
  | cons a t ih =>
    intro hs
    rcases List.sorted_cons.mp hs with ⟨ha, ht⟩
    show insSorted a (sortNat t) = a :: t
    rw [ih ht, insSorted_of_le a t ha]

theorem blockRows_sorted (i k : Nat) : List.Sorted (· ≤ ·) (blockRows i k) := by
  exact List.Pairwise.map _ (fun a b h => by omega)
    ((List.pairwise_lt_range (k + 1)).imp (fun h => Nat.le_of_lt h))

theorem blockRows_nodup (i k : Nat) : (blockRows i k).Nodup :=
  List.Nodup.map (fun a b h => by omega) (List.nodup_range (k + 1))

theorem moveSelection_one_blockRows (i k : Nat) (l : List α) :
    moveSelection 1 (blockRows i k) l =
      (blockRows i k).reverse.foldl (moveStep 1) l := by
  unfold moveSelection
  rw [if_neg (by omega), List.dedup_eq_self.mpr (blockRows_nodup i k),
    sortNat_of_sorted _ (blockRows_sorted i k),
    if_neg (blockRows_ne_nil i k), if_neg (by omega)]

theorem bubbleDown (B : List α) : ∀ (A : List α) (c : α) (D : List α), B ≠ [] →
    (blockRows A.length (B.length - 1)).reverse.foldl (moveStep 1) (A ++ B ++ c :: D)
      = A ++ c :: B ++ D := by
  induction B using List.reverseRecOn with
  | nil => intro A c D h; exact absurd rfl h
  | append_singleton B' b ih =>
    intro A c D _
    by_cases hB' : B' = []
    · subst hB'
      show (blockRows A.length 0).reverse.foldl (moveStep 1) (A ++ [b] ++ c :: D) = _
      have : blockRows A.length 0 = [A.length] := by simp [blockRows, List.range_succ]
      rw [this]
      show moveStep 1 (A ++ [b] ++ c :: D) A.length = A ++ c :: [b] ++ D
      rw [show A ++ [b] ++ c :: D = A ++ b :: c :: D by simp, moveStep_one_swap]
      simp
    · have hlen : (B' ++ [b]).length - 1 = (B'.length - 1) + 1 := by
        have : B'.length ≠ 0 := fun h => hB' (List.length_eq_zero.mp h)
        simp [List.length_append]; omega
      rw [hlen, blockRows_succ, List.reverse_concat']
      have hrow : A.length + (B'.length - 1 + 1) = (A ++ B').length := by
        have : B'.length ≠ 0 := fun h => hB' (List.length_eq_zero.mp h)
        simp [List.length_append]; omega
      show (blockRows A.length (B'.length - 1)).reverse.foldl (moveStep 1)
          (moveStep 1 (A ++ (B' ++ [b]) ++ c :: D) (A.length + (B'.length - 1 + 1))) = _
      rw [hrow, show A ++ (B' ++ [b]) ++ c :: D = (A ++ B') ++ b :: c :: D by simp,
        moveStep_one_swap,
        show (A ++ B') ++ c :: b :: D = A ++ B' ++ c :: (b :: D) by simp]
      rw [ih A c (b :: D) hB']
      simp

theorem moveSelection_rotate (A : List α) (B' : List α) (b : α) :
    moveSelection 1 (blockRows A.length B'.length) (A ++ B' ++ [b]) = A ++ b :: B' := by
  rw [moveSelection_one_blockRows]
  by_cases hB' : B' = []
  · subst hB'
    have hrows : blockRows A.length 0 = [A.length] := by
      simp [blockRows, List.range_succ]
    simp only [List.length_nil]
    rw [hrows]
    show moveStep 1 (A ++ [] ++ [b]) A.length = A ++ b :: []
    rw [show A ++ ([] : List α) ++ [b] = A ++ [b] by simp]
    rw [moveStep_one_skip _ _ (by simp)]
  · have h0 : B'.length ≠ 0 := fun h => hB' (List.length_eq_zero.mp h)
    have hlen : B'.length = (B'.length - 1) + 1 := by omega
    rw [hlen, blockRows_succ, List.reverse_concat']
    show (blockRows A.length (B'.length - 1)).reverse.foldl (moveStep 1)
        (moveStep 1 (A ++ B' ++ [b]) (A.length + (B'.length - 1 + 1))) = _
    rw [moveStep_one_skip _ _ (by simp [List.length_append]; omega)]
    rw [show A ++ B' ++ [b] = A ++ B' ++ b :: [] from rfl, bubbleDown B' A b [] hB']
    simp

/-- C5 (amended): moving a contiguous selection by `+1` bubbles the entry
just past the block down to the block's start when the block does not end at
the last row (so the whole block shifts one slot, preserving relative
order); when the block ends at the last row, the last entry (out-of-bounds
target) keeps its slot while every other selected entry still moves past
it — the selection does not stack against the boundary. -/
theorem moveSelection_plusOne_contiguous (A B : List α) (c : α) (D : List α)
    (hB : B ≠ []) (B' : List α) (b : α) :
    (moveSelection 1 (blockRows A.length (B.length - 1)) (A ++ B ++ c :: D)
        = A ++ c :: B ++ D)
    ∧ (moveSelection 1 (blockRows A.length B'.length) (A ++ B' ++ [b])
        = A ++ b :: B') :=
  ⟨by rw [moveSelection_one_blockRows, bubbleDown B A c D hB],
    moveSelection_rotate A B' b⟩

/-- C5 (counterexample): on `[0,1,2,3]` with rows `{2,3}` selected, moving
by `+1` would be a no-op under the claimed "stack against the boundary"
behavior, but the code swaps the last two entries instead. -/
theorem moveSelection_plusOne_no_stacking :
    moveSelection 1 [2, 3] ([0, 1, 2, 3] : List Nat) = [0, 1, 3, 2]
    ∧ moveSelection 1 [2, 3] ([0, 1, 2, 3] : List Nat) ≠ [0, 1, 2, 3] := by
  decide

/-- Witness for `moveSelection_plusOne_contiguous` at a concrete registry. -/
theorem moveSelection_plusOne_contiguous_witness :
    (moveSelection 1 (blockRows 1 1) ([0, 1, 2, 3, 4] : List Nat) = [0, 3, 1, 2, 4])
    ∧ (moveSelection 1 (blockRows 1 1) ([0, 1, 2] : List Nat) = [0, 2, 1]) :=
  moveSelection_plusOne_contiguous [0] [1, 2] 3 [4] (by decide) [1] 2

/-- C9: `_move_selection` with offset `-1` when exactly the first row is
selected, and with offset `+1` when exactly the last row is selected, leaves
the list unchanged. -/
theorem moveSelection_boundary_noop (l : List α) :
    moveSelection (-1) [0] l = l ∧ moveSelection 1 [l.length - 1] l = l := by
  constructor
  · have hrows : sortNat (List.dedup [(0 : Nat)]) = [0] := rfl
    simp only [moveSelection, hrows]
    norm_num
    show moveStep (-1) l 0 = l
    simp only [moveStep]
    rw [if_pos (Or.inl (by norm_num))]
  · have hded : List.dedup [l.length - 1] = [l.length - 1] := by
      simp
    have hrows : sortNat [l.length - 1] = [l.length - 1] := rfl
    simp only [moveSelection, hded, hrows]
    norm_num
    show moveStep 1 l (l.length - 1) = l
    exact moveStep_one_skip l _ (by omega)

/-! ### Registry invariant across operations (C4) and rename failures (C7) -/

theorem perm_insertIdx (x : α) : ∀ (n : Nat) (l : List α), n ≤ l.length →
    List.Perm (l.insertIdx n x) (x :: l) := by
  intro n
  induction n with
  | zero => intro l _; simp
  | succ m ih =>
    intro l hl
    cases l with
    | nil => simp at hl
    | cons y t =>
      rw [List.insertIdx_succ_cons]
      exact ((ih t (Nat.le_of_succ_le_succ hl)).cons y).trans (List.Perm.swap x y t)

theorem insertQt_perm (n : Nat) (x : α) (l : List α) :
    List.Perm (insertQt n x l) (x :: l) := by
  unfold insertQt
  split
  · exact perm_insertIdx x n l (by omega)
  · exact List.perm_append_singleton x l

theorem get_cons_eraseIdx_perm :
    ∀ (l : List α) (n : Nat) (h : n < l.length),
      List.Perm (l.get ⟨n, h⟩ :: l.eraseIdx n) l := by
  intro l
  induction l with
  | nil => intro n h; simp at h
  | cons y t ih =>
    intro n h
    cases n with
    | zero => rfl
    | succ m =>
      rw [List.get_cons_succ, List.eraseIdx_cons_succ]
      exact (List.Perm.swap y (t.get ⟨m, by simpa using h⟩) (t.eraseIdx m)).trans
        ((ih m (by simpa using h)).cons y)

theorem moveStep_perm (offset : Int) (l : List α) (row : Nat) :
    List.Perm (moveStep offset l row) l := by
  simp only [moveStep]
  by_cases hc : ((row : Int) + offset < 0 ∨ (l.length : Int) ≤ (row : Int) + offset)
  · rw [if_pos hc]
  · rw [if_neg hc]
    by_cases hr : row < l.length
    · rw [dif_pos hr]
      exact (insertQt_perm _ _ _).trans (get_cons_eraseIdx_perm l row hr)
    · rw [dif_neg hr]

theorem foldl_moveStep_perm (offset : Int) :
    ∀ (rows : List Nat) (l : List α), List.Perm (rows.foldl (moveStep offset) l) l := by
  intro rows
  induction rows with
  | nil => intro l; exact List.Perm.refl l
  | cons r rs ih =>
    intro l
    exact (ih (moveStep offset l r)).trans (moveStep_perm offset l r)

theorem moveSelection_perm (offset : Int) (sel : List Nat) (l : List α) :
    List.Perm (moveSelection offset sel l) l := by
  simp only [moveSelection]
  by_cases h0 : offset = 0
  · rw [if_pos h0]
  · rw [if_neg h0]
    by_cases hr : sortNat sel.dedup = []
    · rw [if_pos hr]
    · rw [if_neg hr]
      by_cases hn : offset < 0
      · rw [if_pos hn]
        exact foldl_moveStep_perm offset _ l
      · rw [if_neg hn]
        exact foldl_moveStep_perm offset _ l

theorem removeSelectedAux_sublist (sel : List Nat) :
    ∀ (l : List α) (i : Nat), List.Sublist (removeSelectedAux sel i l) l := by
  intro l
  induction l with
  | nil => intro i; exact List.Sublist.refl []
  | cons x xs ih =>
    intro i
    show List.Sublist (if sel.contains i then removeSelectedAux sel (i + 1) xs
      else x :: removeSelectedAux sel (i + 1) xs) (x :: xs)
    split
    · exact (ih (i + 1)).cons x
    · exact (ih (i + 1)).cons₂ x

theorem addPathBatch_nodup (isFile : String → Bool) (paths : List String) :
    ∀ reg : List FileEntry, (reg.map FileEntry.path).Nodup →
      (((addPathBatch isFile reg paths).1).map FileEntry.path).Nodup := by
  induction paths with
  | nil => intro reg h; exact h
  | cons p ps ih =>
    intro reg h
    show ((if !(isFile p) then addPathBatch isFile reg ps
      else if !(SUPPORTED_EXTENSIONS.contains (toLowerStr (pathSuffix p))) then
        addPathBatch isFile reg ps
      else if pathAlreadyListed reg p then addPathBatch isFile reg ps
      else
        let r := addPathBatch isFile (reg ++ [⟨pathName p, p⟩]) ps
        (r.1, r.2 + 1)).1.map FileEntry.path).Nodup
    split
    · exact ih reg h
    · split
      · exact ih reg h
      · split
        · exact ih reg h
        · rename_i hf hs hl
          refine ih (reg ++ [⟨pathName p, p⟩]) ?_
          have hp : p ∉ reg.map FileEntry.path :=
            fun hmem => hl ((pathAlreadyListed_iff reg p).mpr hmem)
          simp only [List.map_append, List.map_cons, List.map_nil]
          exact List.nodup_append.mpr ⟨h, List.nodup_singleton p,
            by simpa [List.disjoint_singleton] using hp⟩

/-- Registry states reachable from the empty list through add, remove and
reorder (no rename). -/
inductive ReachableCore : List FileEntry → Prop where
  | init : ReachableCore []
  | add (isFile : String → Bool) (paths : List String) {r : List FileEntry} :
      ReachableCore r → ReachableCore (addPathBatch isFile r paths).1
  | remove (sel : List Nat) {r : List FileEntry} :
      ReachableCore r → ReachableCore (removeSelected sel r)
  | reorder (offset : Int) (sel : List Nat) {r : List FileEntry} :
      ReachableCore r → ReachableCore (moveSelection offset sel r)

/-- Registry states reachable from the empty list through all four
operations, rename included. -/
inductive Reachable : List FileEntry → Prop where
  | init : Reachable []
  | add (isFile : String → Bool) (paths : List String) {r : List FileEntry} :
      Reachable r → Reachable (addPathBatch isFile r paths).1
  | remove (sel : List Nat) {r : List FileEntry} :
      Reachable r → Reachable (removeSelected sel r)
  | reorder (offset : Int) (sel : List Nat) {r : List FileEntry} :
      Reachable r → Reachable (moveSelection offset sel r)
  | rename (i : Nat) (input : Option String) (tEx confirm osOk : Bool)
      {r : List FileEntry} :
      Reachable r → Reachable (renameAt r i input tEx confirm osOk)

/-- C4 (counterexample): a reachable registry with two entries holding the
same path.  Add `/d/a.pdf` and `/d/b.pdf`, then rename entry 1 to `a.pdf`
(target exists, overwrite confirmed, `os.rename` succeeds): both entries now
store `/d/a.pdf`. -/
theorem registry_duplicate_path_reachable :
    Reachable (renameAt (addPathBatch (fun _ => true) []
        ["/d/a.pdf", "/d/b.pdf"]).1 1 (some "a.pdf") true true true)
    ∧ ¬ ((renameAt (addPathBatch (fun _ => true) []
        ["/d/a.pdf", "/d/b.pdf"]).1 1 (some "a.pdf") true true true).map
          FileEntry.path).Nodup :=
  ⟨Reachable.rename 1 (some "a.pdf") true true true
      (Reachable.add (fun _ => true) ["/d/a.pdf", "/d/b.pdf"] Reachable.init),
    by decide⟩

/-- C4 (amended): in every registry state reachable through add, remove and
reorder, no two entries hold the same path (rename is excluded: renaming an
entry onto another entry's path breaks the invariant, see the
counterexample). -/
theorem registry_paths_nodup_core {r : List FileEntry} (h : ReachableCore r) :
    (r.map FileEntry.path).Nodup := by
  induction h with
  | init => simp
  | add isFile paths _ ih => exact addPathBatch_nodup isFile paths _ ih
  | remove sel _ ih =>
    exact ih.sublist (List.Sublist.map FileEntry.path (removeSelectedAux_sublist sel _ 0))
  | reorder offset sel _ ih =>
    exact (((moveSelection_perm offset sel _).map FileEntry.path).nodup_iff).mpr ih

/-- Witness for `registry_paths_nodup_core` at a concrete reachable state. -/
theorem registry_paths_nodup_core_witness :
    (((addPathBatch (fun _ => true) [] ["/d/a.pdf", "/d/b.pdf"]).1).map
      FileEntry.path).Nodup :=
  registry_paths_nodup_core
    (ReachableCore.add (fun _ => true) ["/d/a.pdf", "/d/b.pdf"] ReachableCore.init)

/-- C7: with a non-empty stripped name, (a) a new name carrying an
extension outside the supported set (case-insensitive) fails with
`unsupportedExt`, leaving the registry entry unchanged and performing no
on-disk rename; (b) if the name passes the extension check and the overwrite
question is not declined, an `os.rename` failure fails with `renameFailed`,
leaving the registry entry unchanged and performing no on-disk rename. -/
theorem renameItem_failure_keeps_entry (entry : FileEntry) (raw : String)
    (tEx confirm osOk : Bool) (hnz : ¬ stripStr raw = "") :
    ((toLowerStr (pathSuffix (stripStr raw)) ≠ "" ∧
        toLowerStr (pathSuffix (stripStr raw)) ∉ SUPPORTED_EXTENSIONS) →
      renameItem entry (some raw) tEx confirm osOk = (.unsupportedExt, entry, none))
    ∧ ((toLowerStr (pathSuffix (stripStr raw)) = "" ∨
        toLowerStr (pathSuffix (stripStr raw)) ∈ SUPPORTED_EXTENSIONS) →
      (tEx = false ∨ confirm = true) →
      renameItem entry (some raw) tEx confirm false = (.renameFailed, entry, none)) := by
  constructor
  · intro hbad
    simp only [renameItem]
    rw [if_neg hnz, if_pos hbad]
  · intro hok hdecl
    simp only [renameItem]
    rw [if_neg hnz, if_neg (by rcases hok with h | h <;> simp [h])]
    rw [if_neg (by rcases hdecl with h | h <;> simp [h])]
    rw [if_pos (by simp)]

/-- Witness for `renameItem_failure_keeps_entry`: renaming `b.pdf` to
`x.docx` is rejected; renaming it to `a.pdf` with a failing `os.rename`
reports the failure; the entry survives unchanged both times. -/
theorem renameItem_failure_keeps_entry_witness :
    (¬ stripStr "x.docx" = "")
    ∧ renameItem ⟨"b.pdf", "/d/b.pdf"⟩ (some "x.docx") false true true
        = (.unsupportedExt, ⟨"b.pdf", "/d/b.pdf"⟩, none)
    ∧ renameItem ⟨"b.pdf", "/d/b.pdf"⟩ (some "a.pdf") true true false
        = (.renameFailed, ⟨"b.pdf", "/d/b.pdf"⟩, none) := by
  refine ⟨by decide, ?_, ?_⟩
  · exact (renameItem_failure_keeps_entry ⟨"b.pdf", "/d/b.pdf"⟩ "x.docx"
      false true true (by decide)).1 (by decide)
  · exact (renameItem_failure_keeps_entry ⟨"b.pdf", "/d/b.pdf"⟩ "a.pdf"
      true true false (by decide)).2 (by decide) (by decide)

/-! ### Conflict resolution: `_resolve_conflict_path` (C6) -/

/-- A filesystem path split the way `_resolve_conflict_path` manipulates
it: directory part, stem, and extension (`with_stem` keeps `dir` and
`ext`). -/
structure RPath where
  dir : String
  stem : String
  ext : String
deriving DecidableEq, Repr

/-- Model of `path.with_stem(s)`. -/
def withStem (p : RPath) (s : String) : RPath :=
  { p with stem := s }

/-- The loop's candidate for counter `k`:
`path.with_stem(f"{path.stem}_{k}")`. -/
def conflictCandidate (p : RPath) (k : Nat) : RPath :=
  withStem p (p.stem ++ "_" ++ toString k)

/-- Model of `_resolve_conflict_path` over an existence oracle `ex`.  The source
loop has no upper bound, so totality needs the hypothesis that some counter
is free; the result is the candidate for the least such counter, exactly
what the `while True` loop returns. -/
def resolveConflictPath (ex : RPath → Bool) (p : RPath)
    (h : ex p = true → ∃ k, ex (conflictCandidate p (k + 1)) = false) : RPath :=
  if hp : ex p = true then conflictCandidate p (Nat.find (h hp) + 1)
  else p

/-- C6: `_resolve_conflict_path` returns the path unchanged when nothing
exists at it; otherwise it returns the candidate with the smallest counter
`c ≥ 1` whose candidate does not exist (every smaller counter being
taken). -/
theorem resolveConflictPath_first_free (ex : RPath → Bool) (p : RPath)
    (h : ex p = true → ∃ k, ex (conflictCandidate p (k + 1)) = false) :
    (ex p = false → resolveConflictPath ex p h = p)
    ∧ (∀ c : Nat, ex p = true → 1 ≤ c → ex (conflictCandidate p c) = false →
        (∀ j, j < c → 1 ≤ j → ex (conflictCandidate p j) = true) →
        resolveConflictPath ex p h = conflictCandidate p c) := by
  constructor
  · intro hp
    unfold resolveConflictPath
    rw [dif_neg (by simp [hp])]
  · intro c hp hc1 hcfree hbelow
    unfold resolveConflictPath
    rw [dif_pos hp]
    have hfind := Nat.find_spec (h hp)
    rcases Nat.lt_trichotomy (Nat.find (h hp) + 1) c with hlt | heq | hgt
    · rw [hbelow (Nat.find (h hp) + 1) hlt (by omega)] at hfind
      exact absurd hfind (by simp)
    · rw [heq]
    · have hmin := Nat.find_min (h hp) (show c - 1 < Nat.find (h hp) by omega)
      rw [show c - 1 + 1 = c by omega] at hmin
      exact absurd hcfree hmin

/-- The filesystem of §8's example: `name.jpg` and `name_1.jpg` exist. -/
def exTwoTaken : RPath → Bool := fun q =>
  q == ⟨"", "name", ".jpg"⟩ || q == conflictCandidate ⟨"", "name", ".jpg"⟩ 1

theorem exTwoTaken_total : exTwoTaken ⟨"", "name", ".jpg"⟩ = true →
    ∃ k, exTwoTaken (conflictCandidate ⟨"", "name", ".jpg"⟩ (k + 1)) = false :=
  fun _ => ⟨1, by decide⟩

/-- Witness for `resolveConflictPath_first_free`: with `name.jpg` and
`name_1.jpg` both present, resolution returns `name_2.jpg`. -/
theorem resolveConflictPath_first_free_witness :
    resolveConflictPath exTwoTaken ⟨"", "name", ".jpg"⟩ exTwoTaken_total
      = ⟨"", "name_2", ".jpg"⟩ := by
  have h := (resolveConflictPath_first_free exTwoTaken ⟨"", "name", ".jpg"⟩
    exTwoTaken_total).2 2 (by decide) (by decide) (by decide) (by decide)
  rw [h]
  decide

/-! ### Export pipeline: `_export_to_jpg` / `_convert_file_to_jpg` (C1, C10) -/

/-- Outcome of `_convert_file_to_jpg` on one path: success with the JPG
files written (the function returns their count), a missing-dependency
failure (Python `ImportError`, message as raised by the converters), or any
other exception with its message. -/
inductive ConvOutcome where
  | ok (files : List String)
  | importError (msg : String)
  | error (msg : String)
deriving DecidableEq, Repr

/-- Whether a conversion outcome is a missing-dependency failure. -/
def ConvOutcome.isImportErr : ConvOutcome → Bool
  | .importError _ => true
  | _ => false

/-- Result of `_export_to_jpg`: aborted by a missing-dependency failure
(only the error dialog is shown — neither the accumulated count nor the
issues list is reported), or completed with the exported count and the
per-file issue strings.  Both carry the JPG files written to disk by the
processed inputs, which stay on disk either way. -/
inductive ExportResult where
  | aborted (msg : String) (written : List String)
  | completed (exported : Nat) (issues : List String) (written : List String)
deriving DecidableEq, Repr

/-- The loop of `_export_to_jpg` with its `exported_files` / `issues`
accumulators (plus the files written so far, tracked as disk state). -/
def exportLoop (convert : String → ConvOutcome) :
    List String → Nat → List String → List String → ExportResult
  | [], n, issues, written => .completed n issues written
  | p :: ps, n, issues, written =>
    match convert p with
    | .ok files => exportLoop convert ps (n + files.length) issues (written ++ files)
    | .importError m =>
        .aborted ("Missing dependency: " ++ m ++
          ". Install the required package and try again.") written
    | .error m => exportLoop convert ps n (issues ++ [pathName p ++ ": " ++ m]) written

/-- Model of `_export_to_jpg` over the gathered paths. -/
def exportToJpg (convert : String → ConvOutcome) (paths : List String) :
    ExportResult :=
  exportLoop convert paths 0 [] []

/-- Spec-side count (§4.3): sum of the per-file output counts of the
non-failing files. -/
def exportedCount (convert : String → ConvOutcome) (paths : List String) : Nat :=
  (paths.map (fun p => match convert p with
    | .ok files => files.length
    | _ => 0)).sum

/-- Spec-side issue list (§4.3): one `"<filename>: <message>"` string per
failing file, in input order. -/
def exportIssues (convert : String → ConvOutcome) (paths : List String) :
    List String :=
  paths.filterMap (fun p => match convert p with
    | .error m => some (pathName p ++ ": " ++ m)
    | _ => none)

/-- The JPG files written for the given inputs, in order. -/
def exportWritten (convert : String → ConvOutcome) : List String → List String
  | [] => []
  | p :: ps =>
    (match convert p with
      | .ok files => files
      | _ => []) ++ exportWritten convert ps

theorem exportLoop_no_importError (convert : String → ConvOutcome)
    (paths : List String) (h : ∀ p ∈ paths, (convert p).isImportErr = false) :
    ∀ (n : Nat) (issues written : List String),
      exportLoop convert paths n issues written =
        .completed (n + exportedCount convert paths)
          (issues ++ exportIssues convert paths)
          (written ++ exportWritten convert paths) := by
  induction paths with
  | nil => intro n issues written; simp [exportLoop, exportedCount, exportIssues, exportWritten]
  | cons p ps ih =>
    intro n issues written
    have hp := h p (List.mem_cons_self p ps)
    have hps : ∀ q ∈ ps, (convert q).isImportErr = false :=
      fun q hq => h q (List.mem_cons_of_mem p hq)
    cases hc : convert p with
    | ok files =>
      simp only [exportLoop, hc, ih hps]
      simp [exportedCount, exportIssues, exportWritten, hc, Nat.add_assoc]
    | importError m => rw [hc] at hp; simp [ConvOutcome.isImportErr] at hp
    | error m =>
      simp only [exportLoop, hc, ih hps]
      simp [exportedCount, exportIssues, exportWritten, hc]

/-- C1 (amended): provided no file fails with a missing-dependency
failure (which aborts the whole run instead — see the counterexample), the
export pipeline processes each path independently: every failing file
contributes exactly one `"<filename>: <message>"` issue string, in input
order, without stopping the remaining paths, and the exported count is the
sum of the output counts of the non-failing files. -/
theorem exportToJpg_isolates_failures (convert : String → ConvOutcome)
    (paths : List String)
    (h : ∀ p ∈ paths, (convert p).isImportErr = false) :
    exportToJpg convert paths =
      .completed (exportedCount convert paths) (exportIssues convert paths)
        (exportWritten convert paths) := by
  unfold exportToJpg
  rw [exportLoop_no_importError convert paths h 0 [] []]
  simp

/-- A conversion oracle for the counterexample/witness runs: the TIFF
input raises a missing-dependency failure, every other input converts to
one JPG. -/
def convImportFail : String → ConvOutcome := fun p =>
  if p == "/in/a.tif" then
    .importError "Pillow is required to export TIFF frames to JPG"
  else .ok ["/out/b.jpg"]

/-- C1 (counterexample): with a missing-dependency failure on the first
file, the run aborts: no issue string is recorded for it, the second file is
never processed, and the result is not the completed count-plus-issues
outcome the claim describes for every failure. -/
theorem exportToJpg_importError_breaks_isolation :
    exportToJpg convImportFail ["/in/a.tif", "/in/b.jpg"]
      = .aborted ("Missing dependency: Pillow is required to export TIFF frames to JPG. Install the required package and try again.") []
    ∧ exportToJpg convImportFail ["/in/a.tif", "/in/b.jpg"]
      ≠ .completed 1 ["a.tif: Pillow is required to export TIFF frames to JPG"]
          ["/out/b.jpg"] := by
  decide

/-- Witness for `exportToJpg_isolates_failures` on a concrete batch with one
failing (non-dependency) input. -/
def convOneBad : String → ConvOutcome := fun p =>
  if p == "/in/x.pdf" then .ok ["/out/x_page001.jpg", "/out/x_page002.jpg"]
  else .error "cannot identify image file"

theorem exportToJpg_isolates_failures_witness :
    exportToJpg convOneBad ["/in/x.pdf", "/in/bad.tif"]
      = .completed (exportedCount convOneBad ["/in/x.pdf", "/in/bad.tif"])
          (exportIssues convOneBad ["/in/x.pdf", "/in/bad.tif"])
          (exportWritten convOneBad ["/in/x.pdf", "/in/bad.tif"]) :=
  exportToJpg_isolates_failures convOneBad
    ["/in/x.pdf", "/in/bad.tif"] (by decide)

/-- C10: a missing-dependency failure on any file aborts the run at that
file: the remaining paths are not processed, the result carries neither the
exported count accumulated so far nor any issue list (only the dialog
message), and the JPG files written for the earlier inputs remain on
disk. -/
theorem exportToJpg_importError_aborts (convert : String → ConvOutcome)
    (pre post : List String) (bad m : String)
    (hpre : ∀ p ∈ pre, (convert p).isImportErr = false)
    (hbad : convert bad = .importError m) :
    exportToJpg convert (pre ++ bad :: post) =
      .aborted ("Missing dependency: " ++ m ++
        ". Install the required package and try again.")
        (exportWritten convert pre) := by
  unfold exportToJpg
  have main : ∀ (pre' : List String),
      (∀ p ∈ pre', (convert p).isImportErr = false) →
      ∀ (n : Nat) (issues written : List String),
        exportLoop convert (pre' ++ bad :: post) n issues written =
          .aborted ("Missing dependency: " ++ m ++
            ". Install the required package and try again.")
            (written ++ exportWritten convert pre') := by
    intro pre'
    induction pre' with
    | nil =>
      intro _ n issues written
      simp [exportLoop, hbad, exportWritten]
    | cons p ps ih =>
      intro hpre' n issues written
      have hp := hpre' p (List.mem_cons_self p ps)
      have hps : ∀ q ∈ ps, (convert q).isImportErr = false :=
        fun q hq => hpre' q (List.mem_cons_of_mem p hq)
      cases hc : convert p with
      | ok files =>
        simp only [List.cons_append, exportLoop, hc, List.append_eq]
        rw [ih hps]
        simp [exportWritten, hc]
      | importError m' => rw [hc] at hp; simp [ConvOutcome.isImportErr] at hp
      | error m' =>
        simp only [List.cons_append, exportLoop, hc, List.append_eq]
        rw [ih hps]
        simp [exportWritten, hc]
  rw [main pre hpre 0 [] []]
  simp

/-- Witness for `exportToJpg_importError_aborts`: one successfully exported
JPG stays on disk, then the TIFF aborts the run. -/
theorem exportToJpg_importError_aborts_witness :
    exportToJpg convImportFail (["/in/b.jpg"] ++ "/in/a.tif" :: []) =
      .aborted ("Missing dependency: " ++
        "Pillow is required to export TIFF frames to JPG" ++
        ". Install the required package and try again.")
        (exportWritten convImportFail ["/in/b.jpg"]) :=
  exportToJpg_importError_aborts convImportFail ["/in/b.jpg"] [] "/in/a.tif"
    "Pillow is required to export TIFF frames to JPG" (by decide) (by decide)

/-! ### Merge pipeline: `_merge_into_pdf` and the PDF converters (C2, C3) -/

/-- The name `tempfile.NamedTemporaryFile(delete=False, suffix=".pdf")`
hands out for the `k`-th temp file of an invocation. -/
def tempName (k : Nat) : String :=
  "/tmp/tmp" ++ toString k ++ ".pdf"

/-- Disk state threaded through a merge invocation: the temp-name counter
and the temp files currently existing on disk. -/
structure TempDisk where
  counter : Nat
  files : List String
deriving DecidableEq, Repr

/-- Model of `_convert_tiff_to_pdf` / `_convert_image_to_pdf`: decode the input
first (a decode failure propagates before any temp file exists), then
create the temp file — it exists on disk from this point (`delete=False`,
descriptor closed) — then encode into it with `save`.  An encode failure
propagates with the temp file already on disk; the caller has not yet
recorded it in `temp_files`. -/
def convertToPdfTemp (decode : String → Except String Unit)
    (save : String → Except String Unit) (st : TempDisk) (path : String) :
    Except String String × TempDisk :=
  match decode path with
  | .error m => (.error m, st)
  | .ok _ =>
    let t := tempName st.counter
    let st' : TempDisk := ⟨st.counter + 1, st.files ++ [t]⟩
    match save path with
    | .error m => (.error m, st')
    | .ok _ => (.ok t, st')

/-- Outcome of one `Path(temp_file).unlink()` call in the `finally`
loop. -/
inductive UnlinkOutcome where
  | ok
  | fileNotFound
  | osError (msg : String)
deriving DecidableEq, Repr

/-- The `try` body of `_merge_into_pdf`: dispatch on each path's
(lower-cased) extension; `.pdf` appends directly, TIFF/JPG convert to a
temp PDF which is recorded in `temp_files` and then appended; any other
extension raises `ValueError`.  After the loop the output is written.
Returns the body's outcome, the disk state, and the recorded
`temp_files`. -/
def mergeLoop (appendPdf : String → Except String Unit)
    (tiffDecode tiffSave imgDecode imgSave : String → Except String Unit)
    (writeOut : Except String Unit) :
    List String → TempDisk → List String →
      Except String Unit × TempDisk × List String
  | [], st, temps => (writeOut, st, temps)
  | p :: ps, st, temps =>
    let e := toLowerStr (pathSuffix p)
    if e = ".pdf" then
      match appendPdf p with
      | .ok _ => mergeLoop appendPdf tiffDecode tiffSave imgDecode imgSave
          writeOut ps st temps
      | .error m => (.error m, st, temps)
    else if e = ".tif" ∨ e = ".tiff" then
      match convertToPdfTemp tiffDecode tiffSave st p with
      | (.error m, st') => (.error m, st', temps)
      | (.ok t, st') =>
        match appendPdf t with
        | .ok _ => mergeLoop appendPdf tiffDecode tiffSave imgDecode imgSave
            writeOut ps st' (temps ++ [t])
        | .error m => (.error m, st', temps ++ [t])
    else if e = ".jpg" ∨ e = ".jpeg" then
      match convertToPdfTemp imgDecode imgSave st p with
      | (.error m, st') => (.error m, st', temps)
      | (.ok t, st') =>
        match appendPdf t with
        | .ok _ => mergeLoop appendPdf tiffDecode tiffSave imgDecode imgSave
            writeOut ps st' (temps ++ [t])
        | .error m => (.error m, st', temps ++ [t])
    else (.error ("Unsupported file encountered: " ++ p), st, temps)

/-- The `finally` loop: `Path(temp_file).unlink()` for each recorded temp
file in order, `except FileNotFoundError: pass`.  Any other `OSError`
propagates out of the loop, skipping the remaining deletions.  Returns the
propagated error, if any, and the disk state. -/
def cleanupTemps (unlink : String → UnlinkOutcome) :
    List String → TempDisk → Option String × TempDisk
  | [], st => (none, st)
  | t :: ts, st =>
    match unlink t with
    | .ok => cleanupTemps unlink ts ⟨st.counter, st.files.erase t⟩
    | .fileNotFound => cleanupTemps unlink ts st
    | .osError m => (some m, st)

/-- Model of `_merge_into_pdf`: run the body, then always run the cleanup.  An
exception raised in `finally` replaces whatever the body produced (Python
semantics); otherwise the body's outcome stands.  Returns the outcome and
the temp files still on disk when the call returns. -/
def mergeIntoPdf (appendPdf : String → Except String Unit)
    (tiffDecode tiffSave imgDecode imgSave : String → Except String Unit)
    (writeOut : Except String Unit) (unlink : String → UnlinkOutcome)
    (paths : List String) : Except String Unit × List String :=
  let r := mergeLoop appendPdf tiffDecode tiffSave imgDecode imgSave
    writeOut paths ⟨0, []⟩ []
  let c := cleanupTemps unlink r.2.2 r.2.1
  (match c.1 with
    | some m => .error m
    | none => r.1,
   c.2.files)

/-- C2 (evaluation at the failing input): merging `["/in/a.tiff"]` where
the TIFF decodes but encoding into the fresh temp file fails (for example
the disk fills up): the merge returns the conversion error, yet the temp
file is still on disk when it returns — it was created before the encode
and never recorded in `temp_files`, so the `finally` loop never deletes
it. -/
theorem merge_temp_leak_on_encode_failure :
    mergeIntoPdf (fun _ => .ok ()) (fun _ => .ok ())
        (fun _ => .error "No space left on device") (fun _ => .ok ())
        (fun _ => .ok ()) (.ok ()) (fun _ => .ok) ["/in/a.tiff"]
      = (.error "No space left on device", ["/tmp/tmp0.pdf"]) := by
  rfl

theorem cleanupTemps_none_of_benign (unlink : String → UnlinkOutcome)
    (h : ∀ t, unlink t = .ok ∨ unlink t = .fileNotFound) :
    ∀ (ts : List String) (st : TempDisk), (cleanupTemps unlink ts st).1 = none := by
  intro ts
  induction ts with
  | nil => intro st; rfl
  | cons t ts' ih =>
    intro st
    rcases h t with ht | ht <;> simp [cleanupTemps, ht, ih]

/-- C3 (amended): deletion failures where the file is already gone
(`FileNotFoundError`) are swallowed: whenever every unlink in the cleanup
returns success or `FileNotFoundError`, the merge's outcome is exactly the
body's outcome (success or the original conversion/write error).  Any other
OS-level deletion failure instead propagates and replaces the outcome — see
the counterexample. -/
theorem merge_outcome_of_benign_cleanup
    (appendPdf tiffDecode tiffSave imgDecode imgSave : String → Except String Unit)
    (writeOut : Except String Unit) (unlink : String → UnlinkOutcome)
    (paths : List String)
    (h : ∀ t, unlink t = .ok ∨ unlink t = .fileNotFound) :
    (mergeIntoPdf appendPdf tiffDecode tiffSave imgDecode imgSave writeOut
        unlink paths).1 =
      (mergeLoop appendPdf tiffDecode tiffSave imgDecode imgSave writeOut
        paths ⟨0, []⟩ []).1 := by
  simp only [mergeIntoPdf]
  rw [cleanupTemps_none_of_benign unlink h]

/-- C3 (counterexample): all conversions, appends and the output write
succeed (the body's outcome is success), but unlinking the temp file fails
with a permission error; the merge then returns that deletion error instead
of the body's success. -/
theorem merge_cleanup_osError_replaces_outcome :
    mergeIntoPdf (fun _ => .ok ()) (fun _ => .ok ()) (fun _ => .ok ())
        (fun _ => .ok ()) (fun _ => .ok ()) (.ok ())
        (fun _ => .osError "Permission denied") ["/in/a.jpg"]
      = (.error "Permission denied", ["/tmp/tmp0.pdf"])
    ∧ (mergeLoop (fun _ => .ok ()) (fun _ => .ok ()) (fun _ => .ok ())
        (fun _ => .ok ()) (fun _ => .ok ()) (.ok ()) ["/in/a.jpg"]
          ⟨0, []⟩ []).1 = .ok () :=
  ⟨rfl, rfl⟩

/-- Witness for `merge_outcome_of_benign_cleanup`: with well-behaved deletion
the merge of one JPG returns the body's success. -/
theorem merge_outcome_of_benign_cleanup_witness :
    (mergeIntoPdf (fun _ => .ok ()) (fun _ => .ok ()) (fun _ => .ok ())
        (fun _ => .ok ()) (fun _ => .ok ()) (.ok ())
        (fun _ => UnlinkOutcome.ok) ["/in/a.jpg"]).1 =
      (mergeLoop (fun _ => .ok ()) (fun _ => .ok ()) (fun _ => .ok ())
        (fun _ => .ok ()) (fun _ => .ok ()) (.ok ()) ["/in/a.jpg"]
          ⟨0, []⟩ []).1 :=
  merge_outcome_of_benign_cleanup (fun _ => .ok ()) (fun _ => .ok ())
    (fun _ => .ok ()) (fun _ => .ok ()) (fun _ => .ok ()) (.ok ())
    (fun _ => UnlinkOutcome.ok) ["/in/a.jpg"] (fun _ => Or.inl rfl)
